import Mathlib

set_option maxRecDepth 4000

/-!
# Verification of the alpaca-trading-bot backtest core

A shallow embedding of `backtest_individual.py`:

* the trade-replay loop of `run_backtest` (portfolio tracking, 20%-tranche
  position sizing under a capital cap, long-only liquidation),
* the performance metrics (`win_rate`, `sharpe_ratio`, `final_value`,
  `total_return`),
* the parameter resolution of `run_backtest` (cached best parameters vs.
  explicit argument),
* the grid-search optimizer `find_best_params` with its JSON parameter
  cache and 7-day staleness window.

Python floats are modelled as exact rationals (`ℚ`); `int(x)` is
truncation toward zero, `round(x, 8)` is round-half-to-even at 8 decimal
places on the exact rational value.  A float expression whose IEEE value
would be `NaN` or `±inf` (division by a zero standard deviation) is
modelled as `Option.none`.  Calendar time is a rational number of days;
the cache's `"%Y-%m-%d"` date strings keep only the integer (midnight)
part of a timestamp.
-/

namespace AlpacaBot

/-- Market kind of a symbol, from `symbol_config['market']`:
`crypto` models `market == 'CRYPTO'`, `stock` any other market. -/
inductive Market where
  | crypto
  | stock
deriving DecidableEq

/-- Python `int(x)` for a rational: truncation toward zero. -/
def pyInt (x : ℚ) : ℤ :=
  if 0 ≤ x then ⌊x⌋ else -⌊-x⌋

/-- Round-half-to-even to an integer (the tie rule of Python `round`). -/
def roundHalfEven (x : ℚ) : ℤ :=
  if x - ⌊x⌋ < 1/2 then ⌊x⌋
  else if 1/2 < x - ⌊x⌋ then ⌊x⌋ + 1
  else if 2 ∣ ⌊x⌋ then ⌊x⌋ else ⌊x⌋ + 1

/-- Python `round(x, 8)`: round-half-to-even at 8 decimal places. -/
def round8 (x : ℚ) : ℚ :=
  (roundHalfEven (x * 10^8) : ℚ) / 10^8

/-- Quantization of a share quantity, lines 236-239 / 251-254 of
`backtest_individual.py`: `round(shares, 8)` for crypto markets,
`int(shares)` for the rest. -/
def quantize (m : Market) (x : ℚ) : ℚ :=
  match m with
  | .crypto => round8 x
  | .stock => (pyInt x : ℚ)

/-- Minimum tradable quantity, line 242: 1 share for non-crypto,
0.0001 for crypto. -/
def minQty (m : Market) : ℚ :=
  match m with
  | .crypto => 1/10000
  | .stock => 1

/-- Trade side, the `'type'` field of a trade record. -/
inductive Side where
  | buy
  | sell
deriving DecidableEq

/-- One trade record appended by the simulation loop (lines 260-267 and
273-279).  `time` is the bar index; `totalPosition` is the
`'total_position'` field, recorded for buys only. -/
structure Trade where
  time : ℕ
  side : Side
  price : ℚ
  shares : ℚ
  value : ℚ
  totalPosition : Option ℚ
deriving DecidableEq

/-- The mutable portfolio state of one `run_backtest` simulation
(lines 204-212): cash, position quantity, the `portfolio_value` and
`shares` series, and the trade list. -/
structure SimState where
  cash : ℚ
  position : ℚ
  portfolioValue : List ℚ
  shares : List ℚ
  trades : List Trade
deriving DecidableEq

/-- The quantized (and minimum-bumped) 20%-tranche quantity,
lines 231-244: `capital_to_use = initial_capital * 0.20`, converted to
shares at `current_price`, quantized per market, bumped to the minimum
quantity when below it. -/
def tranche_qty (m : Market) (initialCapital currentPrice : ℚ) : ℚ :=
  let capitalToUse := initialCapital * 0.20
  let sharesToBuy := quantize m (capitalToUse / currentPrice)
  if sharesToBuy < minQty m then minQty m else sharesToBuy

/-- The quantity actually attempted by a buy, lines 246-254: if adding
the tranche would push the total position value above
`max_position_value = initial_capital`, shrink to the remaining headroom
and re-quantize. -/
def buy_qty (m : Market) (initialCapital position currentPrice : ℚ) : ℚ :=
  let totalPositionValue := position * currentPrice
  let sharesToBuy := tranche_qty m initialCapital currentPrice
  let newTotalValue := totalPositionValue + sharesToBuy * currentPrice
  if newTotalValue > initialCapital then
    quantize m ((initialCapital - totalPositionValue) / currentPrice)
  else sharesToBuy

/-- Signal processing for one bar with index `i > 0`, lines 224-280.
A buy signal (+1) is considered only while the start-of-bar
`total_position_value = position * current_price` is strictly below the
cap, and executes only if `cost ≤ cash` and the quantity is positive.
A sell signal (-1) with a positive position liquidates it entirely. -/
def processSignal (m : Market) (initialCapital : ℚ) (st : SimState)
    (currentTime : ℕ) (currentPrice : ℚ) (signal : ℤ) : SimState :=
  if signal = 1 then
    if st.position * currentPrice < initialCapital then
      let sharesToBuy := buy_qty m initialCapital st.position currentPrice
      let cost := sharesToBuy * currentPrice
      if cost ≤ st.cash ∧ 0 < sharesToBuy then
        { st with
          position := st.position + sharesToBuy
          cash := st.cash - cost
          trades := st.trades ++
            [⟨currentTime, .buy, currentPrice, sharesToBuy, cost,
              some (st.position + sharesToBuy)⟩] }
      else st
    else st
  else if signal = -1 ∧ 0 < st.position then
    let saleValue := st.position * currentPrice
    { st with
      cash := st.cash + saleValue
      position := 0
      trades := st.trades ++
        [⟨currentTime, .sell, currentPrice, st.position, saleValue, none⟩] }
  else st

/-- One iteration of the loop `for i in range(len(data))`, lines 214-285:
signals are processed only for `i > 0`; regardless of any trade, the
end-of-bar value `cash + position * current_price` and the position
quantity are appended to their series. -/
def simBar (m : Market) (initialCapital : ℚ) (i : ℕ) (st : SimState)
    (currentPrice : ℚ) (signal : ℤ) : SimState :=
  let st1 := if 0 < i then processSignal m initialCapital st i currentPrice signal else st
  { st1 with
    portfolioValue := st1.portfolioValue ++ [st1.cash + st1.position * currentPrice]
    shares := st1.shares ++ [st1.position] }

/-- The simulation loop from bar index `i` over the remaining
`(close, signal)` bars. -/
def runSimAux (m : Market) (initialCapital : ℚ) :
    ℕ → List (ℚ × ℤ) → SimState → SimState
  | _, [], st => st
  | i, b :: rest, st =>
      runSimAux m initialCapital (i + 1) rest (simBar m initialCapital i st b.1 b.2)

/-- The initial portfolio state, lines 204-211: all cash, no position,
the value series seeded with `initial_capital` and the shares series
with 0. -/
def initState (initialCapital : ℚ) : SimState :=
  { cash := initialCapital
    position := 0
    portfolioValue := [initialCapital]
    shares := [0]
    trades := [] }

/-- The whole trading simulation of `run_backtest` (lines 204-285) over a
list of `(close, signal)` bars.  The code fixes
`initial_capital = 100000`; it is a parameter here so that the theorems
quantify over it where possible. -/
def run_sim (m : Market) (initialCapital : ℚ) (bars : List (ℚ × ℤ)) : SimState :=
  runSimAux m initialCapital 0 bars (initState initialCapital)

/-- The portfolio state after the first `k` bars of a run (the state the
loop holds when it reaches bar `k`). -/
def stateAt (m : Market) (initialCapital : ℚ) (bars : List (ℚ × ℤ)) (k : ℕ) : SimState :=
  runSimAux m initialCapital 0 (bars.take k) (initState initialCapital)

/-- `final_value = cash + position * data['close'].iloc[-1]`, line 288. -/
def final_value (st : SimState) (lastClose : ℚ) : ℚ :=
  st.cash + st.position * lastClose

/-- `total_return = (final_value - initial_capital)/initial_capital * 100`,
line 289. -/
def total_return (initialCapital finalValue : ℚ) : ℚ :=
  (finalValue - initialCapital) / initialCapital * 100

/-- `win_rate`, lines 292-308: after splitting the trade list into buys
and sells, pair them positionally up to the shorter length; a pair is a
win only when `sell_value - buy_value > 0` strictly.  The inner
`len(trades_df) > 0` test of line 294 is always true under the outer
`if trades:` and is collapsed here. -/
def win_rate (trades : List Trade) : ℚ :=
  if trades ≠ [] then
    let buyTrades := trades.filter (fun t => t.side = Side.buy)
    let sellTrades := trades.filter (fun t => t.side = Side.sell)
    if buyTrades ≠ [] ∧ sellTrades ≠ [] then
      let minTrades := min buyTrades.length sellTrades.length
      let profits := List.zipWith (fun s b => s.value - b.value)
        (sellTrades.take minTrades) (buyTrades.take minTrades)
      if 0 < profits.length then
        ((profits.filter (fun p => 0 < p)).length : ℚ) / (profits.length : ℚ) * 100
      else 0
    else 0
  else 0

/-- Pandas `Series.pct_change().dropna()`: the per-step percentage
returns of a series. -/
def pctChange (l : List ℚ) : List ℚ :=
  (l.zip l.tail).map (fun ab => (ab.2 - ab.1) / ab.1)

/-- Pandas `Series.mean()`: sum over length. -/
def listMean (l : List ℚ) : ℚ :=
  l.sum / (l.length : ℚ)

/-- Pandas `Series.std() ^ 2` with the default `ddof=1`: the sample
variance, summed squared deviations over `n - 1`. -/
def sampleVariance (l : List ℚ) : ℚ :=
  (l.map (fun x => (x - listMean l)^2)).sum / ((l.length : ℚ) - 1)

/-- `sharpe_ratio`, lines 316-319:
`np.sqrt(252) * excess.mean() / excess.std() if len(returns) > 0 else 0`
with `excess = returns - 0.02/252`.

`sqrtFn` abstracts the float square root (its exact value is irrational,
so it is kept as a parameter).  A result that is an IEEE non-finite
float is modelled as `none`: with a single return observation,
`excess.std()` (ddof=1) is `NaN`; with two or more observations but a
zero standard deviation, the division yields `±inf` or `NaN`.  Only a
finite float result is `some`. -/
def sharpe_ratio (sqrtFn : ℚ → ℚ) (portfolioValue : List ℚ) : Option ℚ :=
  let returns := pctChange portfolioValue
  let excessReturns := returns.map (fun r => r - 0.02/252)
  if 0 < returns.length then
    if 2 ≤ returns.length ∧ sampleVariance excessReturns ≠ 0 then
      some (sqrtFn 252 * listMean excessReturns / sqrtFn (sampleVariance excessReturns))
    else none
  else some 0

/-- Modelled from the spec, §4.2 sharpe_ratio: the same formula but
defined to be 0 whenever there are fewer than 2 return observations or
the standard deviation is 0 (the spec's stated edge-case rule). -/
def sharpeSpec (sqrtFn : ℚ → ℚ) (portfolioValue : List ℚ) : ℚ :=
  let returns := pctChange portfolioValue
  let excessReturns := returns.map (fun r => r - 0.02/252)
  if returns.length < 2 ∨ sampleVariance excessReturns = 0 then 0
  else sqrtFn 252 * listMean excessReturns / sqrtFn (sampleVariance excessReturns)

/-! ## The parameter cache store and the grid-search optimizer -/

/-- The observable state of the `best_params.json` document when it is
opened: absent, present but not valid JSON, or a parsed value. -/
inductive CacheDoc (α : Type) where
  | missing
  | corrupt
  | doc (data : α)

/-- Python exceptions that the modelled code can raise. -/
inductive PyErr where
  | jsonDecodeError
  | valueError
deriving DecidableEq

/-- The `try: json.load(f) except FileNotFoundError: {}` pattern of
lines 63-68 and 151-156: a missing file yields the empty document
`empty`; a file whose contents are not valid JSON makes `json.load`
raise `json.JSONDecodeError`, which this `except` clause does not
catch. -/
def loadCacheOrEmpty {α : Type} (store : CacheDoc α) (empty : α) : Except PyErr α :=
  match store with
  | .missing => .ok empty
  | .corrupt => .error .jsonDecodeError
  | .doc data => .ok data

/-- The metrics recorded for the best candidate, lines 115-119. -/
structure BTStats where
  totalReturn : ℚ
  winRate : ℚ
  maxDrawdown : ℚ
deriving DecidableEq

/-- One value of the cache store's symbol → record mapping, lines
128-137: the winning parameter set, its metrics, the performance summary
over all candidates, and the save date.  `date` is a day number (the
stored `"%Y-%m-%d"` string carries no time of day); `none` models a
record without a `'date'` key (`existing_data[symbol].get('date')`,
line 73). -/
structure CacheEntry (P : Type) where
  bestParams : P
  metrics : BTStats
  perfSummary : ℚ × ℚ × ℚ
  date : Option ℤ
deriving DecidableEq

/-- Lookup in the JSON top-level object, modelled as an association
list. -/
def lookupSym {α : Type} (data : List (String × α)) (symbol : String) : Option α :=
  match data with
  | [] => none
  | (s, v) :: rest => if s = symbol then some v else lookupSym rest symbol

/-- `existing_data[symbol] = entry`: replace the entry if the key
exists, else append it (Python dict assignment preserves the other
keys). -/
def setSym {α : Type} (data : List (String × α)) (symbol : String) (v : α) :
    List (String × α) :=
  match data with
  | [] => [(symbol, v)]
  | (s, w) :: rest =>
      if s = symbol then (s, v) :: rest else (s, w) :: setSym rest symbol v

/-- The selection loop of lines 86-119 once the running best is no
longer `None`: `best` holds the current best candidate, updated only on
strict improvement of the fitness, so the earliest candidate wins
ties. -/
def selectFrom {P : Type} (fitness : P → ℚ) (best : P) : List P → P
  | [] => best
  | p :: rest =>
      if fitness p > fitness best then selectFrom fitness p rest
      else selectFrom fitness best rest

/-- The full selection loop: `best_params = None` and
`best_performance = float('-inf')` initially, so the first candidate is
always adopted (`performance > -inf`), after which `selectFrom`
applies. -/
def selectBest {P : Type} (fitness : P → ℚ) : List P → Option P
  | [] => none
  | p :: rest => some (selectFrom fitness p rest)

/-- `itertools.product` over a list of value lists, in its generation
order (leftmost list varies slowest). -/
def listProd {V : Type} : List (List V) → List (List V)
  | [] => [[]]
  | vs :: rest => vs.flatMap (fun v => (listProd rest).map (fun tl => v :: tl))

/-- What a `find_best_params` call returns, plus the observables the
spec's properties talk about: the number of `run_backtest` simulations
performed and the document written back (unchanged when the cache was
fresh). -/
structure FBPResult (P : Type) where
  bestParams : Option P
  simulations : ℕ
  store : List (String × CacheEntry P)

/-- `find_best_params` (lines 58-144) over a candidate list
`listProd grid`.  `runTR` is the oracle for
`run_backtest(symbol, days, params, is_simulating=True).stats` on one
candidate (data fetch, default-parameter overlay and signal generation
happen inside it); `now` is `datetime.now()` as a rational day count.

Steps, as in the source: load the cache (missing file → empty, corrupt
file → uncaught `json.JSONDecodeError`); if the entry for `symbol` has a
date younger than `timedelta(weeks=1)`, return its `best_params` with no
simulation; otherwise evaluate every candidate, keep the best under
strict `>` on `total_return`, and write back the document with the
symbol's entry replaced (`max(performances)` on an empty candidate list
raises `ValueError`).  The stored date is `now` truncated to its day
(`strftime("%Y-%m-%d")`).

`gridSearch` is the simulation-and-write phase (lines 84-144), reached
when there is no fresh cache entry. -/
def gridSearch {V : Type} (grid : List (List V)) (runTR : List V → BTStats)
    (symbol : String) (existingData : List (String × CacheEntry (List V)))
    (now : ℚ) : Except PyErr (FBPResult (List V)) :=
  match listProd grid with
  | [] => .error .valueError
  | c :: cs =>
      let paramCombinations := c :: cs
      let fitness := fun p => (runTR p).totalReturn
      let best := selectFrom fitness c cs
      let performances := paramCombinations.map fitness
      let maxPerformance := performances.foldl max (fitness c)
      let minPerformance := performances.foldl min (fitness c)
      let avgPerformance := performances.sum / (performances.length : ℚ)
      let newEntry : CacheEntry (List V) :=
        { bestParams := best
          metrics := runTR best
          perfSummary := (maxPerformance, minPerformance, avgPerformance)
          date := some ⌊now⌋ }
      .ok ⟨some best, paramCombinations.length, setSym existingData symbol newEntry⟩

/-- `find_best_params` proper, lines 58-82 plus the `gridSearch` phase:
load the cache; if the entry for `symbol` carries a date younger than
`timedelta(weeks=1)`, return its `best_params` with no simulation and no
write; otherwise run the grid search. -/
def find_best_params {V : Type} (grid : List (List V)) (runTR : List V → BTStats)
    (symbol : String) (store : CacheDoc (List (String × CacheEntry (List V))))
    (now : ℚ) : Except PyErr (FBPResult (List V)) := do
  let existingData ← loadCacheOrEmpty store []
  let lastUpdateDate := (lookupSym existingData symbol).bind (fun e => e.date)
  match lastUpdateDate with
  | some d =>
      if now - (d : ℚ) < 7 then
        match lookupSym existingData symbol with
        | some e => return ⟨some e.bestParams, 0, existingData⟩
        | none => return ⟨none, 0, existingData⟩
      else
        gridSearch grid runTR symbol existingData now
  | none => gridSearch grid runTR symbol existingData now

/-! ## The parameter resolution of `run_backtest` -/

/-- Lines 147-165 of `run_backtest`: the `best_params.json` document is
loaded (missing → empty, corrupt → uncaught error); then, whenever
`is_simulating == False`, the `params` argument is overwritten with the
cached `best_params` for the symbol, or with `get_default_params()` when
the symbol has no entry.  The returned value is what both
`generate_signals` and the reported `params_used` receive. -/
def resolveParams {P : Type} (isSimulating : Bool) (params : Option P)
    (store : CacheDoc (List (String × CacheEntry P))) (symbol : String)
    (defaults : P) : Except PyErr (Option P) := do
  let bestParamsData ← loadCacheOrEmpty store []
  if isSimulating = false then
    match lookupSym bestParamsData symbol with
    | some e => return some e.bestParams
    | none => return some defaults
  else
    return params

/-! ## Helper lemmas: quantization bounds -/

/-- The quantization slack "epsilon" of one buy at a given price:
half a unit in the 8th decimal place of the quantity, in notional terms,
for crypto; integer truncation never rounds up, so 0 for stocks. -/
def quantEps : Market → ℚ → ℚ
  | .crypto, price => price / (2 * 10 ^ 8)
  | .stock, _ => 0

lemma pyInt_le {x : ℚ} (h : 0 ≤ x) : (pyInt x : ℚ) ≤ x := by
  unfold pyInt
  rw [if_pos h]
  exact Int.floor_le x

lemma roundHalfEven_le (x : ℚ) : (roundHalfEven x : ℚ) ≤ x + 1/2 := by
  unfold roundHalfEven
  have hfl : (⌊x⌋ : ℚ) ≤ x := Int.floor_le x
  split_ifs with h1 h2 h3
  · linarith
  · push_cast
    linarith [not_lt.mp h1]
  · linarith
  · push_cast
    have : 1/2 ≤ x - (⌊x⌋ : ℚ) := not_lt.mp h1
    linarith

lemma round8_le (x : ℚ) : round8 x ≤ x + 1 / (2 * 10 ^ 8) := by
  unfold round8
  have h := roundHalfEven_le (x * 10 ^ 8)
  rw [div_le_iff₀ (by norm_num : (0:ℚ) < 10 ^ 8)]
  calc (roundHalfEven (x * 10 ^ 8) : ℚ) ≤ x * 10 ^ 8 + 1/2 := h
    _ = (x + 1 / (2 * 10 ^ 8)) * 10 ^ 8 := by ring

lemma quantize_le {m : Market} {x : ℚ} (h : 0 ≤ x) :
    quantize m x ≤ x + 2 * quantEps m 1 := by
  cases m with
  | crypto =>
      have := round8_le x
      simp only [quantize, quantEps]
      linarith
  | stock =>
      have := pyInt_le h
      simp only [quantize, quantEps]
      linarith

lemma quantEps_nonneg {m : Market} {price : ℚ} (h : 0 ≤ price) :
    0 ≤ quantEps m price := by
  cases m <;> simp [quantEps] <;> positivity

/-! ## Claim theorems -/

/-- **C10.**  Trade execution is frictionless and value-conserving: for
any portfolio state and any bar, processing the bar's signal leaves
`cash + position * current_price` unchanged — a buy moves exactly
`cost = quantity * price` from cash into the position, a sell moves
exactly `position * price` back into cash. -/
theorem trade_value_conservation (m : Market) (initialCapital : ℚ) (st : SimState)
    (t : ℕ) (currentPrice : ℚ) (signal : ℤ) :
    (processSignal m initialCapital st t currentPrice signal).cash +
      (processSignal m initialCapital st t currentPrice signal).position * currentPrice =
    st.cash + st.position * currentPrice := by
  unfold processSignal
  dsimp only
  split_ifs <;> simp <;> ring

/-- The 3-bar Scenario A input: flat bars at close 100 with signals
hold, buy, sell. -/
def scenarioA : List (ℚ × ℤ) := [(100, 0), (100, 1), (100, -1)]

/-- **C2.**  Scenario A (3 flat bars at $100, signals hold/buy/sell,
initial capital 100000, non-crypto): bar 1 buys a $20000 tranche of 200
shares leaving cash 80000 and position 200; bar 2 liquidates for $20000
leaving cash 100000 and position 0; the run reports final value 100000,
total return 0%, 2 trades, and — the single pair's profit 0 not being
strictly positive — a win rate of 0%. -/
theorem scenario_a_round_trip :
    (stateAt .stock 100000 scenarioA 2).cash = 80000 ∧
    (stateAt .stock 100000 scenarioA 2).position = 200 ∧
    (run_sim .stock 100000 scenarioA).trades =
      [⟨1, .buy, 100, 200, 20000, some 200⟩, ⟨2, .sell, 100, 200, 20000, none⟩] ∧
    (run_sim .stock 100000 scenarioA).cash = 100000 ∧
    (run_sim .stock 100000 scenarioA).position = 0 ∧
    final_value (run_sim .stock 100000 scenarioA) 100 = 100000 ∧
    total_return 100000 (final_value (run_sim .stock 100000 scenarioA) 100) = 0 ∧
    (run_sim .stock 100000 scenarioA).trades.length = 2 ∧
    win_rate (run_sim .stock 100000 scenarioA).trades = 0 := by
  norm_num [scenarioA, stateAt, run_sim, runSimAux, simBar, processSignal, buy_qty,
    tranche_qty, quantize, pyInt, minQty, initState, final_value, total_return, win_rate,
    List.filter]

/-! ## Helper lemmas: the shape of a run -/

lemma processSignal_portfolioValue (m : Market) (cap : ℚ) (st : SimState)
    (t : ℕ) (price : ℚ) (signal : ℤ) :
    (processSignal m cap st t price signal).portfolioValue = st.portfolioValue := by
  unfold processSignal
  dsimp only
  split_ifs <;> rfl

lemma processSignal_sharesSeries (m : Market) (cap : ℚ) (st : SimState)
    (t : ℕ) (price : ℚ) (signal : ℤ) :
    (processSignal m cap st t price signal).shares = st.shares := by
  unfold processSignal
  dsimp only
  split_ifs <;> rfl

lemma simBar_series (m : Market) (cap : ℚ) (i : ℕ) (st : SimState) (p : ℚ) (s : ℤ) :
    (simBar m cap i st p s).portfolioValue =
      st.portfolioValue ++ [(simBar m cap i st p s).cash + (simBar m cap i st p s).position * p] ∧
    (simBar m cap i st p s).shares = st.shares ++ [(simBar m cap i st p s).position] := by
  unfold simBar
  dsimp only
  split_ifs with h
  · simp [processSignal_portfolioValue, processSignal_sharesSeries]
  · simp

lemma runSimAux_append (m : Market) (cap : ℚ) (l₁ l₂ : List (ℚ × ℤ)) :
    ∀ (i : ℕ) (st : SimState),
      runSimAux m cap i (l₁ ++ l₂) st =
        runSimAux m cap (i + l₁.length) l₂ (runSimAux m cap i l₁ st) := by
  induction l₁ with
  | nil => intro i st; simp [runSimAux]
  | cons b rest ih =>
      intro i st
      show runSimAux m cap (i + 1) (rest ++ l₂) (simBar m cap i st b.1 b.2) =
        runSimAux m cap (i + (b :: rest).length) l₂
          (runSimAux m cap (i + 1) rest (simBar m cap i st b.1 b.2))
      have h : i + 1 + rest.length = i + (b :: rest).length := by
        simp only [List.length_cons]
        omega
      rw [ih, h]

lemma runSimAux_series (m : Market) (cap : ℚ) :
    ∀ (l : List (ℚ × ℤ)) (i : ℕ) (st : SimState),
      ∃ tv ts : List ℚ,
        (runSimAux m cap i l st).portfolioValue = st.portfolioValue ++ tv ∧
        (runSimAux m cap i l st).shares = st.shares ++ ts ∧
        tv.length = l.length ∧ ts.length = l.length := by
  intro l
  induction l with
  | nil => intro i st; exact ⟨[], [], by simp [runSimAux], by simp [runSimAux], rfl, rfl⟩
  | cons b rest ih =>
      intro i st
      obtain ⟨tv, ts, h1, h2, h3, h4⟩ := ih (i + 1) (simBar m cap i st b.1 b.2)
      obtain ⟨hb1, hb2⟩ := simBar_series m cap i st b.1 b.2
      refine ⟨[(simBar m cap i st b.1 b.2).cash + (simBar m cap i st b.1 b.2).position * b.1] ++ tv,
        [(simBar m cap i st b.1 b.2).position] ++ ts, ?_, ?_, ?_, ?_⟩
      · show (runSimAux m cap (i + 1) rest (simBar m cap i st b.1 b.2)).portfolioValue = _
        rw [h1, hb1, List.append_assoc]
      · show (runSimAux m cap (i + 1) rest (simBar m cap i st b.1 b.2)).shares = _
        rw [h2, hb2, List.append_assoc]
      · simp [h3]
      · simp [h4]

lemma stateAt_series_length (m : Market) (cap : ℚ) (bars : List (ℚ × ℤ)) (k : ℕ)
    (hk : k ≤ bars.length) :
    (stateAt m cap bars k).portfolioValue.length = k + 1 ∧
    (stateAt m cap bars k).shares.length = k + 1 := by
  obtain ⟨tv, ts, h1, h2, h3, h4⟩ :=
    runSimAux_series m cap (bars.take k) 0 (initState cap)
  unfold stateAt
  rw [h1, h2]
  simp only [initState, List.length_append, List.length_singleton, List.length_take, h3, h4]
  omega

lemma stateAt_succ (m : Market) (cap : ℚ) (bars : List (ℚ × ℤ)) (k : ℕ)
    (hk : k < bars.length) :
    stateAt m cap bars (k + 1) =
      simBar m cap k (stateAt m cap bars k) (bars.get ⟨k, hk⟩).1 (bars.get ⟨k, hk⟩).2 := by
  unfold stateAt
  rw [← List.take_concat_get bars k hk, List.concat_eq_append, runSimAux_append]
  have hlen : (bars.take k).length = k := by
    simp [List.length_take, Nat.min_eq_left hk.le]
  rw [hlen, Nat.zero_add]
  simp [runSimAux]

lemma run_sim_decomp (m : Market) (cap : ℚ) (bars : List (ℚ × ℤ)) (k : ℕ)
    (hk : k ≤ bars.length) :
    run_sim m cap bars = runSimAux m cap k (bars.drop k) (stateAt m cap bars k) := by
  unfold run_sim stateAt
  conv_lhs => rw [← List.take_append_drop k bars]
  rw [runSimAux_append]
  have hlen : (bars.take k).length = k := by
    simp [List.length_take, Nat.min_eq_left hk]
  rw [hlen, Nat.zero_add]

/-- **C9 (counterexample).**  On a 1-bar run the value series has 2
entries, not 1: the seed entry and the entry appended at bar 0 (the loop
body appends for every bar, bar 0 included). -/
theorem series_length_cex :
    (run_sim .stock 100000 [((100 : ℚ), (0 : ℤ))]).portfolioValue.length = 2 ∧
    ¬ (run_sim .stock 100000 [((100 : ℚ), (0 : ℤ))]).portfolioValue.length = 1 := by
  norm_num [run_sim, runSimAux, simBar, initState]

/-- **C9 (amended).**  The value and position series are seeded once
with `initial_capital` and position 0, and then exactly one entry —
`cash + position * current_price`, and the position quantity, both taken
after any trade of the bar — is appended per bar `i ≥ 0` (bar 0
included, even though its signal is not processed), so each series has
exactly `n + 1` entries for an `n`-bar run. -/
theorem series_shape (m : Market) (cap : ℚ) (bars : List (ℚ × ℤ)) :
    (run_sim m cap bars).portfolioValue.length = bars.length + 1 ∧
    (run_sim m cap bars).shares.length = bars.length + 1 ∧
    (run_sim m cap bars).portfolioValue.head? = some cap ∧
    (run_sim m cap bars).shares.head? = some 0 ∧
    ∀ k, (hk : k < bars.length) →
      (run_sim m cap bars).portfolioValue[k+1]? =
        some ((stateAt m cap bars (k+1)).cash +
          (stateAt m cap bars (k+1)).position * (bars.get ⟨k, hk⟩).1) ∧
      (run_sim m cap bars).shares[k+1]? = some ((stateAt m cap bars (k+1)).position) := by
  obtain ⟨tv, ts, h1, h2, h3, h4⟩ := runSimAux_series m cap bars 0 (initState cap)
  have hrun : run_sim m cap bars = runSimAux m cap 0 bars (initState cap) := rfl
  refine ⟨?_, ?_, ?_, ?_, ?_⟩
  · rw [hrun, h1]; simp [initState, h3, Nat.add_comm]
  · rw [hrun, h2]; simp [initState, h4, Nat.add_comm]
  · rw [hrun, h1]; simp [initState]
  · rw [hrun, h2]; simp [initState]
  · intro k hk
    have hdecomp := run_sim_decomp m cap bars (k+1) (by omega)
    obtain ⟨tv', ts', g1, g2, g3, g4⟩ :=
      runSimAux_series m cap (bars.drop (k+1)) (k+1) (stateAt m cap bars (k+1))
    have hlen1 := stateAt_series_length m cap bars (k+1) (by omega)
    have hlenk := stateAt_series_length m cap bars k hk.le
    have hsucc := stateAt_succ m cap bars k hk
    obtain ⟨hs1, hs2⟩ :=
      simBar_series m cap k (stateAt m cap bars k) (bars.get ⟨k, hk⟩).1 (bars.get ⟨k, hk⟩).2
    constructor
    · rw [hdecomp, g1, List.getElem?_append_left (by omega)]
      rw [hsucc, hs1]
      have : k + 1 = ((stateAt m cap bars k).portfolioValue).length := (hlenk.1).symm
      rw [this, List.getElem?_concat_length]
    · rw [hdecomp, g2, List.getElem?_append_left (by omega)]
      rw [hsucc, hs2]
      have : k + 1 = ((stateAt m cap bars k).shares).length := (hlenk.2).symm
      rw [this, List.getElem?_concat_length]

/-- **C9 (witness).**  The shape theorem applied to a concrete 2-bar
run, with the per-bar entry formula instantiated at bar index 0. -/
theorem series_shape_witness :
    (run_sim .stock 100000 [((100 : ℚ), (0 : ℤ)), (100, 1)]).portfolioValue.length = 3 ∧
    (0 : ℕ) < ([((100 : ℚ), (0 : ℤ)), (100, 1)] : List (ℚ × ℤ)).length ∧
    (run_sim .stock 100000 [((100 : ℚ), (0 : ℤ)), (100, 1)]).portfolioValue[0+1]? =
      some ((stateAt .stock 100000 [((100 : ℚ), (0 : ℤ)), (100, 1)] (0+1)).cash +
        (stateAt .stock 100000 [((100 : ℚ), (0 : ℤ)), (100, 1)] (0+1)).position *
          (([((100 : ℚ), (0 : ℤ)), (100, 1)] : List (ℚ × ℤ)).get ⟨0, by norm_num⟩).1) :=
  ⟨(series_shape .stock 100000 [((100 : ℚ), (0 : ℤ)), (100, 1)]).1,
    by norm_num,
    ((series_shape .stock 100000 [((100 : ℚ), (0 : ℤ)), (100, 1)]).2.2.2.2 0
      (by norm_num)).1⟩

/-! ## Helper lemmas: nonnegativity of cash and position -/

lemma processSignal_nonneg (m : Market) (cap : ℚ) (st : SimState) (t : ℕ)
    (price : ℚ) (signal : ℤ) (hprice : 0 < price)
    (hc : 0 ≤ st.cash) (hp : 0 ≤ st.position) :
    0 ≤ (processSignal m cap st t price signal).cash ∧
    0 ≤ (processSignal m cap st t price signal).position := by
  unfold processSignal
  dsimp only
  split_ifs with h1 h2 h3 h4
  · exact ⟨by dsimp only; linarith [h3.1], by dsimp only; linarith [h3.2]⟩
  · exact ⟨hc, hp⟩
  · exact ⟨hc, hp⟩
  · refine ⟨?_, le_refl 0⟩
    dsimp only
    have := mul_nonneg hp hprice.le
    linarith
  · exact ⟨hc, hp⟩

lemma runSimAux_nonneg (m : Market) (cap : ℚ) :
    ∀ (l : List (ℚ × ℤ)) (i : ℕ) (st : SimState),
      (∀ b ∈ l, 0 < b.1) → 0 ≤ st.cash → 0 ≤ st.position →
      0 ≤ (runSimAux m cap i l st).cash ∧ 0 ≤ (runSimAux m cap i l st).position := by
  intro l
  induction l with
  | nil => intro i st _ hc hp; exact ⟨hc, hp⟩
  | cons b rest ih =>
      intro i st hpos hc hp
      have hb : 0 ≤ (simBar m cap i st b.1 b.2).cash ∧
          0 ≤ (simBar m cap i st b.1 b.2).position := by
        unfold simBar
        dsimp only
        split_ifs with h
        · exact processSignal_nonneg m cap st i b.1 b.2 (hpos b (by simp)) hc hp
        · exact ⟨hc, hp⟩
      exact ih (i + 1) _ (fun x hx => hpos x (by simp [hx])) hb.1 hb.2

/-- **C3.**  Throughout every run with positive prices: cash and the
position quantity stay nonnegative (a buy executes only when its cost is
at most the available cash, and only adds a positive quantity; a sell
requires a positive position and zeroes it); moreover a sell signal with
zero position is a no-op on the state. -/
theorem cash_position_nonneg (m : Market) (cap : ℚ) (bars : List (ℚ × ℤ))
    (hcap : 0 ≤ cap) (hprices : ∀ b ∈ bars, 0 < b.1) :
    (∀ k, 0 ≤ (stateAt m cap bars k).cash ∧ 0 ≤ (stateAt m cap bars k).position) ∧
    (∀ (st : SimState) (t : ℕ) (price : ℚ), st.position = 0 →
      processSignal m cap st t price (-1) = st) := by
  constructor
  · intro k
    apply runSimAux_nonneg
    · intro b hb
      exact hprices b (List.take_subset k bars hb)
    · exact hcap
    · exact le_refl 0
  · intro st t price h0
    unfold processSignal
    rw [if_neg (by decide : ¬((-1 : ℤ) = 1)), if_neg]
    rw [h0]
    simp

/-- **C3 (witness).**  The invariant instantiated on a concrete 2-bar
run with a buy at bar 1, and the sell no-op on the initial state. -/
theorem cash_position_nonneg_witness :
    (0 : ℚ) ≤ 100000 ∧ (∀ b ∈ [((100 : ℚ), (1 : ℤ)), (50, 1)], 0 < b.1) ∧
    ((∀ k, 0 ≤ (stateAt .stock 100000 [((100 : ℚ), (1 : ℤ)), (50, 1)] k).cash ∧
        0 ≤ (stateAt .stock 100000 [((100 : ℚ), (1 : ℤ)), (50, 1)] k).position) ∧
      (∀ (st : SimState) (t : ℕ) (price : ℚ), st.position = 0 →
        processSignal .stock 100000 st t price (-1) = st)) :=
  ⟨by norm_num, by norm_num,
    cash_position_nonneg .stock 100000 [((100 : ℚ), (1 : ℤ)), (50, 1)]
      (by norm_num) (by norm_num)⟩

/-- **C1.**  The capital cap on buys, for any portfolio state a run can
hold at a bar: (i) a buy signal is acted on only while the start-of-bar
`position * price` is strictly below `initial_capital` — otherwise the
state is returned untouched; (ii) when adding the (quantized,
minimum-bumped) 20% tranche would push the total position value above
the cap, the attempted quantity is the re-quantized remaining headroom
`(initial_capital - position*price)/price` instead of the buy being
rejected; (iii) after any executed buy, `position * price` is at most
`initial_capital` plus the quantization epsilon (0 for integer-quantized
markets, half a 10⁻⁸ quantity unit in notional for crypto). -/
theorem buy_respects_capital_cap (m : Market) (cap : ℚ) (st : SimState) (t : ℕ)
    (price : ℚ) (hprice : 0 < price) :
    (cap ≤ st.position * price → processSignal m cap st t price 1 = st) ∧
    (st.position * price < cap →
      cap < st.position * price + tranche_qty m cap price * price →
      buy_qty m cap st.position price = quantize m ((cap - st.position * price) / price)) ∧
    (processSignal m cap st t price 1 ≠ st →
      (processSignal m cap st t price 1).position * price ≤ cap + quantEps m price) := by
  refine ⟨?_, ?_, ?_⟩
  · intro h
    unfold processSignal
    rw [if_pos rfl, if_neg (not_lt.mpr h)]
  · intro h1 h2
    unfold buy_qty
    dsimp only
    rw [if_pos h2]
  · intro hne
    by_cases h1 : st.position * price < cap
    · by_cases h2 : buy_qty m cap st.position price * price ≤ st.cash ∧
          0 < buy_qty m cap st.position price
      · have hres : (processSignal m cap st t price 1).position =
            st.position + buy_qty m cap st.position price := by
          unfold processSignal
          rw [if_pos rfl, if_pos h1]
          dsimp only
          rw [if_pos h2]
        rw [hres]
        have heps : 0 ≤ quantEps m price := quantEps_nonneg hprice.le
        unfold buy_qty
        dsimp only
        by_cases hclip : st.position * price + tranche_qty m cap price * price > cap
        · rw [if_pos hclip]
          have hx : (0:ℚ) ≤ (cap - st.position * price) / price :=
            div_nonneg (by linarith) hprice.le
          have hxp : ((cap - st.position * price) / price) * price
              = cap - st.position * price := div_mul_cancel₀ _ hprice.ne'
          cases m with
          | stock =>
              have hle := pyInt_le hx
              have : (pyInt ((cap - st.position * price) / price) : ℚ) * price
                  ≤ cap - st.position * price := by
                calc (pyInt ((cap - st.position * price) / price) : ℚ) * price
                    ≤ ((cap - st.position * price) / price) * price :=
                      mul_le_mul_of_nonneg_right hle hprice.le
                  _ = cap - st.position * price := hxp
              simp only [quantize, quantEps]
              linarith [this]
          | crypto =>
              have hle := round8_le ((cap - st.position * price) / price)
              have : round8 ((cap - st.position * price) / price) * price
                  ≤ (cap - st.position * price) + price / (2 * 10 ^ 8) := by
                calc round8 ((cap - st.position * price) / price) * price
                    ≤ ((cap - st.position * price) / price + 1 / (2 * 10 ^ 8)) * price :=
                      mul_le_mul_of_nonneg_right hle hprice.le
                  _ = ((cap - st.position * price) / price) * price
                      + price / (2 * 10 ^ 8) := by ring
                  _ = (cap - st.position * price) + price / (2 * 10 ^ 8) := by rw [hxp]
              simp only [quantize, quantEps]
              linarith [this]
        · rw [if_neg hclip]
          push_neg at hclip
          nlinarith [hclip]
      · exfalso
        apply hne
        unfold processSignal
        rw [if_pos rfl, if_pos h1]
        dsimp only
        rw [if_neg h2]
    · exfalso
      apply hne
      unfold processSignal
      rw [if_pos rfl, if_neg h1]

/-- **C1 (witness).**  The cap theorem at a concrete input: a stock
state holding 999 shares at price 100 (total 99900, below the cap
100000), so a further 20%-tranche would overflow the cap and is clipped
to the 100-dollar headroom (1 share after truncation). -/
theorem buy_respects_capital_cap_witness :
    (0 : ℚ) < 100 ∧
    ((100000 ≤ (999 : ℚ) * 100 →
        processSignal .stock 100000 ⟨100, 999, [], [], []⟩ 1 100 1 = ⟨100, 999, [], [], []⟩) ∧
      ((999 : ℚ) * 100 < 100000 →
        100000 < (999 : ℚ) * 100 + tranche_qty .stock 100000 100 * 100 →
        buy_qty .stock 100000 999 100 = quantize .stock ((100000 - (999 : ℚ) * 100) / 100)) ∧
      (processSignal .stock 100000 ⟨100, 999, [], [], []⟩ 1 100 1 ≠ ⟨100, 999, [], [], []⟩ →
        (processSignal .stock 100000 ⟨100, 999, [], [], []⟩ 1 100 1).position * 100 ≤
          100000 + quantEps .stock 100)) :=
  ⟨by norm_num,
    buy_respects_capital_cap .stock 100000 ⟨100, 999, [], [], []⟩ 1 100 (by norm_num)⟩

/-- **C4 (counterexample).**  With `is_simulating = False` and an
explicit `params` argument (here `some 1`), `run_backtest` still
overwrites the argument with the cached `best_params` of the symbol
(here 2): the explicit argument is not the parameter set used. -/
theorem explicit_params_ignored_cex :
    resolveParams (P := ℕ) false (some 1)
      (.doc [("SPY", ⟨2, ⟨0, 0, 0⟩, (0, 0, 0), none⟩)]) "SPY" 0 = .ok (some 2) ∧
    (some 2 : Option ℕ) ≠ some 1 := by
  constructor
  · rfl
  · simp

/-- **C4 (amended).**  `run_backtest` loads the cached `best_params`
(falling back to defaults when the symbol has no entry) whenever
`is_simulating` is false, regardless of whether an explicit `params`
argument was supplied; the explicit argument is the parameter set used
(and recorded in `params_used`) exactly when `is_simulating` is true —
though the cache document is still opened in that case, so a corrupt
document fails either way. -/
theorem params_resolution {P : Type} (params : Option P) (symbol : String)
    (defaults : P) (data : List (String × CacheEntry P)) :
    (resolveParams false params (.doc data) symbol defaults =
      .ok (some (match lookupSym data symbol with
        | some e => e.bestParams
        | none => defaults))) ∧
    (resolveParams false params .missing symbol defaults = .ok (some defaults)) ∧
    (∀ store : CacheDoc (List (String × CacheEntry P)),
      resolveParams true params store symbol defaults =
        (loadCacheOrEmpty store []).map (fun _ => params)) := by
  refine ⟨?_, ?_, ?_⟩
  · cases h : lookupSym data symbol <;>
      simp [resolveParams, loadCacheOrEmpty, h, Bind.bind, Except.bind, Pure.pure, Except.pure]
  · simp [resolveParams, loadCacheOrEmpty, lookupSym, Bind.bind, Except.bind, Pure.pure,
      Except.pure]
  · intro store
    cases store <;>
      simp [resolveParams, loadCacheOrEmpty, Except.map, Bind.bind, Except.bind, Pure.pure,
        Except.pure]

/-- **C5 (counterexample).**  A cache document that exists but is not
valid JSON makes `find_best_params` fail: only `FileNotFoundError` is
caught, so the `json.JSONDecodeError` raised by `json.load` propagates
out of the call. -/
theorem corrupt_cache_fatal_cex :
    find_best_params [[(1 : ℕ)]] (fun _ => ⟨0, 0, 0⟩) "SPY" .corrupt 0 =
      .error .jsonDecodeError := by
  rfl

/-- **C5 (amended).**  A missing cache document is treated by
`find_best_params` exactly as an empty cache and is never fatal; a
present but unreadable/corrupt document, however, raises
`json.JSONDecodeError` and aborts the call. -/
theorem cache_load_error_semantics {V : Type} (grid : List (List V))
    (runTR : List V → BTStats) (symbol : String) (now : ℚ) :
    find_best_params grid runTR symbol .missing now =
      find_best_params grid runTR symbol (.doc []) now ∧
    find_best_params grid runTR symbol .corrupt now = .error .jsonDecodeError := by
  constructor
  · rfl
  · rfl

/-- **C7 (counterexample).**  Scenario A is a run with two trades whose
value series is constant, so the excess returns have standard deviation
0: the code divides by zero and reports a non-finite float (`none` in
this model, `-inf` concretely), while the claim (and spec) say the
reported sharpe ratio is 0 — which is what `sharpeSpec` gives. -/
theorem sharpe_degenerate_cex :
    (run_sim .stock 100000 scenarioA).trades.length = 2 ∧
    sharpe_ratio id (run_sim .stock 100000 scenarioA).portfolioValue = none ∧
    sharpeSpec id (run_sim .stock 100000 scenarioA).portfolioValue = 0 := by
  norm_num [scenarioA, run_sim, runSimAux, simBar, processSignal, buy_qty, tranche_qty,
    quantize, pyInt, minQty, initState, sharpe_ratio, sharpeSpec, pctChange, listMean,
    sampleVariance]

/-- **C7 (amended).**  With at least 2 return observations and a nonzero
standard deviation of the excess returns, the reported sharpe ratio is
`sqrt(252) * mean(excess) / std(excess)` (and agrees with the spec's
rule); with at least one observation but fewer than 2, or a zero
standard deviation, the computation divides by `NaN`/0 and the result is
non-finite rather than 0; the literal 0 branch is taken only when there
are no return observations at all. -/
theorem sharpe_ratio_formula (sqrtFn : ℚ → ℚ) (pv : List ℚ) :
    (2 ≤ (pctChange pv).length →
      sampleVariance ((pctChange pv).map (fun r => r - 0.02/252)) ≠ 0 →
      sharpe_ratio sqrtFn pv =
        some (sqrtFn 252 * listMean ((pctChange pv).map (fun r => r - 0.02/252)) /
          sqrtFn (sampleVariance ((pctChange pv).map (fun r => r - 0.02/252)))) ∧
      sharpe_ratio sqrtFn pv = some (sharpeSpec sqrtFn pv)) ∧
    (1 ≤ (pctChange pv).length →
      ((pctChange pv).length < 2 ∨
        sampleVariance ((pctChange pv).map (fun r => r - 0.02/252)) = 0) →
      sharpe_ratio sqrtFn pv = none) ∧
    ((pctChange pv).length = 0 → sharpe_ratio sqrtFn pv = some 0) := by
  refine ⟨?_, ?_, ?_⟩
  · intro h2 hv
    constructor
    · unfold sharpe_ratio
      dsimp only
      rw [if_pos (by omega), if_pos ⟨h2, hv⟩]
    · unfold sharpe_ratio sharpeSpec
      dsimp only
      rw [if_pos (by omega), if_pos ⟨h2, hv⟩, if_neg (by push_neg; exact ⟨by omega, hv⟩)]
  · intro h1 hdeg
    unfold sharpe_ratio
    dsimp only
    rw [if_pos (by omega), if_neg]
    rintro ⟨ha, hb⟩
    rcases hdeg with h | h
    · omega
    · exact hb h
  · intro h0
    unfold sharpe_ratio
    dsimp only
    rw [if_neg (by omega)]

/-- **C7 (witness).**  The formula case evaluated on the value series
`[1, 2, 3]`: two return observations `[1, 1/2]` with a nonzero excess
standard deviation, where the code and the spec's formula agree. -/
theorem sharpe_ratio_formula_witness :
    2 ≤ (pctChange [(1 : ℚ), 2, 3]).length ∧
    sampleVariance ((pctChange [(1 : ℚ), 2, 3]).map (fun r => r - 0.02/252)) ≠ 0 ∧
    sharpe_ratio id [(1 : ℚ), 2, 3] = some (sharpeSpec id [(1 : ℚ), 2, 3]) := by
  refine ⟨by norm_num [pctChange], ?_, ?_⟩
  · norm_num [pctChange, sampleVariance, listMean]
  · exact ((sharpe_ratio_formula id [(1 : ℚ), 2, 3]).1
      (by norm_num [pctChange])
      (by norm_num [pctChange, sampleVariance, listMean])).2

/-! ## Helper lemmas: the selection fold of the grid search -/

lemma selectFrom_spec {P : Type} (fitness : P → ℚ) :
    ∀ (l : List P) (b : P),
      (selectFrom fitness b l = b ∧ ∀ p ∈ l, fitness p ≤ fitness b) ∨
      (∃ i, ∃ hi : i < l.length,
        selectFrom fitness b l = l[i] ∧
        fitness b < fitness (l[i]) ∧
        (∀ j, ∀ hj : j < l.length, fitness (l[j]) ≤ fitness (l[i])) ∧
        (∀ j, ∀ hj : j < l.length, j < i → fitness (l[j]) < fitness (l[i]))) := by
  intro l
  induction l with
  | nil =>
      intro b
      left
      exact ⟨rfl, by simp⟩
  | cons p rest ih =>
      intro b
      by_cases h : fitness p > fitness b
      · have hr : selectFrom fitness b (p :: rest) = selectFrom fitness p rest := by
          simp only [selectFrom]
          rw [if_pos h]
        rcases ih p with ⟨heq, hall⟩ | ⟨i, hi, heq, hgt, hall, hfirst⟩
        · right
          refine ⟨0, by simp, by simpa [hr] using heq, by simpa using h, ?_, ?_⟩
          · intro j hj
            cases j with
            | zero => simp
            | succ n =>
                have hn : n < rest.length := by simpa using hj
                simpa using hall rest[n] (List.getElem_mem hn)
          · intro j hj hj0
            omega
        · right
          refine ⟨i + 1, by simpa using hi, by simpa [hr] using heq,
            lt_trans h (by simpa using hgt), ?_, ?_⟩
          · intro j hj
            cases j with
            | zero => simpa using le_of_lt hgt
            | succ n => simpa using hall n (by simpa using hj)
          · intro j hj hlt
            cases j with
            | zero => simpa using hgt
            | succ n => simpa using hfirst n (by simpa using hj) (by omega)
      · have hle : fitness p ≤ fitness b := not_lt.mp h
        have hr : selectFrom fitness b (p :: rest) = selectFrom fitness b rest := by
          simp only [selectFrom]
          rw [if_neg h]
        rcases ih b with ⟨heq, hall⟩ | ⟨i, hi, heq, hgt, hall, hfirst⟩
        · left
          refine ⟨by rw [hr, heq], ?_⟩
          intro q hq
          rcases List.mem_cons.mp hq with rfl | hq'
          · exact hle
          · exact hall q hq'
        · right
          refine ⟨i + 1, by simpa using hi, by simpa [hr] using heq, by simpa using hgt,
            ?_, ?_⟩
          · intro j hj
            cases j with
            | zero => simpa using le_of_lt (lt_of_le_of_lt hle hgt)
            | succ n => simpa using hall n (by simpa using hj)
          · intro j hj hlt
            cases j with
            | zero => simpa using lt_of_le_of_lt hle hgt
            | succ n => simpa using hfirst n (by simpa using hj) (by omega)

lemma selectBest_spec {P : Type} (fitness : P → ℚ) (c : P) (cs : List P) :
    ∃ i, ∃ hi : i < (c :: cs).length,
      selectFrom fitness c cs = (c :: cs)[i] ∧
      (∀ j, ∀ hj : j < (c :: cs).length, fitness ((c :: cs)[j]) ≤ fitness ((c :: cs)[i])) ∧
      (∀ j, ∀ hj : j < (c :: cs).length, j < i →
        fitness ((c :: cs)[j]) < fitness ((c :: cs)[i])) := by
  rcases selectFrom_spec fitness cs c with ⟨heq, hall⟩ | ⟨i, hi, heq, hgt, hall, hfirst⟩
  · refine ⟨0, by simp, by simpa using heq, ?_, ?_⟩
    · intro j hj
      cases j with
      | zero => simp
      | succ n =>
          have hn : n < cs.length := by simpa using hj
          simpa using hall cs[n] (List.getElem_mem hn)
    · intro j hj hj0
      omega
  · refine ⟨i + 1, by simpa using hi, by simpa using heq, ?_, ?_⟩
    · intro j hj
      cases j with
      | zero => simpa using le_of_lt hgt
      | succ n => simpa using hall n (by simpa using hj)
    · intro j hj hlt
      cases j with
      | zero => simpa using hgt
      | succ n => simpa using hfirst n (by simpa using hj) (by omega)

/-- **C8.**  Over the candidate set generated as the Cartesian product
of the grid's value lists (in generation order), a `find_best_params`
search that finds no cached entry evaluates one backtest per candidate
and selects the candidate with maximal `total_return` under strict `>`,
so on ties the earliest candidate in generation order wins. -/
theorem grid_search_first_argmax {V : Type} (grid : List (List V))
    (runTR : List V → BTStats) (symbol : String) (now : ℚ)
    (hne : listProd grid ≠ []) :
    ∃ i, ∃ hi : i < (listProd grid).length, ∃ r : FBPResult (List V),
      find_best_params grid runTR symbol .missing now = .ok r ∧
      r.bestParams = some ((listProd grid)[i]) ∧
      r.simulations = (listProd grid).length ∧
      (∀ j, ∀ hj : j < (listProd grid).length,
        (runTR ((listProd grid)[j])).totalReturn ≤
          (runTR ((listProd grid)[i])).totalReturn) ∧
      (∀ j, ∀ hj : j < (listProd grid).length, j < i →
        (runTR ((listProd grid)[j])).totalReturn <
          (runTR ((listProd grid)[i])).totalReturn) := by
  have hfb : find_best_params grid runTR symbol .missing now =
      gridSearch grid runTR symbol [] now := rfl
  rcases hp : listProd grid with _ | ⟨c, cs⟩
  · exact absurd hp hne
  · obtain ⟨i, hi, heq, hall, hfirst⟩ :=
      selectBest_spec (fun p => (runTR p).totalReturn) c cs
    have hex : ∃ r : FBPResult (List V), gridSearch grid runTR symbol [] now = .ok r ∧
        r.bestParams = some (selectFrom (fun p => (runTR p).totalReturn) c cs) ∧
        r.simulations = (c :: cs).length := by
      unfold gridSearch
      rw [hp]
      exact ⟨_, rfl, rfl, rfl⟩
    obtain ⟨r, hr1, hr2, hr3⟩ := hex
    refine ⟨i, hi, r, hfb.trans hr1, ?_, hr3, ?_, ?_⟩
    · rw [hr2]
      exact congrArg some heq
    · intro j hj
      exact hall j hj
    · intro j hj hlt
      exact hfirst j hj hlt

/-- **C8 (witness).**  The argmax property instantiated on the concrete
grid `[[1, 2, 3]]` with fitness equal to the candidate's value: the
product is `[[1], [2], [3]]` and the best candidate exists as stated. -/
theorem grid_search_first_argmax_witness :
    listProd [[(1 : ℕ), 2, 3]] ≠ [] ∧
    (∃ i, ∃ hi : i < (listProd [[(1 : ℕ), 2, 3]]).length, ∃ r : FBPResult (List ℕ),
      find_best_params [[(1 : ℕ), 2, 3]] (fun p => ⟨(p.headI : ℚ), 0, 0⟩) "SPY" .missing 0
        = .ok r ∧
      r.bestParams = some ((listProd [[(1 : ℕ), 2, 3]])[i]) ∧
      r.simulations = (listProd [[(1 : ℕ), 2, 3]]).length ∧
      (∀ j, ∀ hj : j < (listProd [[(1 : ℕ), 2, 3]]).length,
        ((fun p => (⟨(p.headI : ℚ), 0, 0⟩ : BTStats)) ((listProd [[(1 : ℕ), 2, 3]])[j])).totalReturn ≤
          ((fun p => (⟨(p.headI : ℚ), 0, 0⟩ : BTStats)) ((listProd [[(1 : ℕ), 2, 3]])[i])).totalReturn) ∧
      (∀ j, ∀ hj : j < (listProd [[(1 : ℕ), 2, 3]]).length, j < i →
        ((fun p => (⟨(p.headI : ℚ), 0, 0⟩ : BTStats)) ((listProd [[(1 : ℕ), 2, 3]])[j])).totalReturn <
          ((fun p => (⟨(p.headI : ℚ), 0, 0⟩ : BTStats)) ((listProd [[(1 : ℕ), 2, 3]])[i])).totalReturn)) :=
  ⟨by simp [listProd],
    grid_search_first_argmax [[(1 : ℕ), 2, 3]] (fun p => ⟨(p.headI : ℚ), 0, 0⟩) "SPY" 0
      (by simp [listProd])⟩

/-! ## Helper lemmas: the cache's staleness window -/

lemma lookupSym_setSym {α : Type} (data : List (String × α)) (symbol : String) (v : α) :
    lookupSym (setSym data symbol v) symbol = some v := by
  induction data with
  | nil => simp [setSym, lookupSym]
  | cons q rest ih =>
      obtain ⟨s, w⟩ := q
      by_cases h : s = symbol
      · simp [setSym, lookupSym, h]
      · simp [setSym, lookupSym, h, ih]

lemma fbp_fresh_hit {V : Type} (grid : List (List V)) (runTR : List V → BTStats)
    (symbol : String) (data : List (String × CacheEntry (List V)))
    (e : CacheEntry (List V)) (d : ℤ) (now : ℚ)
    (hl : lookupSym data symbol = some e) (hd : e.date = some d)
    (hf : now - (d : ℚ) < 7) :
    find_best_params grid runTR symbol (.doc data) now =
      .ok ⟨some e.bestParams, 0, data⟩ := by
  simp [find_best_params, loadCacheOrEmpty, Bind.bind, Except.bind, hl, hd, hf,
    Pure.pure, Except.pure]

lemma fbp_no_date {V : Type} (grid : List (List V)) (runTR : List V → BTStats)
    (symbol : String) (data : List (String × CacheEntry (List V))) (now : ℚ)
    (hl : (lookupSym data symbol).bind (fun e => e.date) = none) :
    find_best_params grid runTR symbol (.doc data) now =
      gridSearch grid runTR symbol data now := by
  simp [find_best_params, loadCacheOrEmpty, Bind.bind, Except.bind, hl]

lemma fbp_stale {V : Type} (grid : List (List V)) (runTR : List V → BTStats)
    (symbol : String) (data : List (String × CacheEntry (List V)))
    (e : CacheEntry (List V)) (d : ℤ) (now : ℚ)
    (hl : lookupSym data symbol = some e) (hd : e.date = some d)
    (hf : ¬(now - (d : ℚ) < 7)) :
    find_best_params grid runTR symbol (.doc data) now =
      gridSearch grid runTR symbol data now := by
  simp [find_best_params, loadCacheOrEmpty, Bind.bind, Except.bind, hl, hd, hf]

lemma gridSearch_ok {V : Type} {grid : List (List V)} {runTR : List V → BTStats}
    {symbol : String} {data : List (String × CacheEntry (List V))} {now : ℚ}
    {r : FBPResult (List V)}
    (h : gridSearch grid runTR symbol data now = .ok r) :
    ∃ e : CacheEntry (List V), r.store = setSym data symbol e ∧
      r.bestParams = some e.bestParams := by
  unfold gridSearch at h
  rcases hp : listProd grid with _ | ⟨c, cs⟩
  · rw [hp] at h
    simp at h
  · rw [hp] at h
    dsimp only at h
    injection h with h'
    exact ⟨_, by rw [← h'], by rw [← h']⟩

lemma second_call_of_gridSearch {V : Type} {grid : List (List V)}
    {runTR : List V → BTStats} {symbol : String}
    {data : List (String × CacheEntry (List V))} {now₁ : ℚ}
    {r₁ : FBPResult (List V)} {p : List V}
    (grid₂ : List (List V)) (runTR₂ : List V → BTStats) (now₂ : ℚ)
    (hgs : gridSearch grid runTR symbol data now₁ = .ok r₁)
    (hp : r₁.bestParams = some p) :
    ∃ e, lookupSym r₁.store symbol = some e ∧ e.bestParams = p ∧
      ∀ d₂ : ℤ, e.date = some d₂ → now₂ - (d₂ : ℚ) < 7 →
        find_best_params grid₂ runTR₂ symbol (.doc r₁.store) now₂ =
          .ok ⟨some p, 0, r₁.store⟩ := by
  obtain ⟨e, hst, hbp⟩ := gridSearch_ok hgs
  have hEq : e.bestParams = p := Option.some.inj (hbp.symm.trans hp)
  have hlook : lookupSym r₁.store symbol = some e := by
    rw [hst]
    exact lookupSym_setSym data symbol e
  refine ⟨e, hlook, hEq, ?_⟩
  intro d₂ hd₂ hf₂
  have := fbp_fresh_hit grid₂ runTR₂ symbol r₁.store e d₂ now₂ hlook hd₂ hf₂
  rw [hEq] at this
  exact this

/-- **C6 (counterexample).**  The stored cache date keeps only the
calendar day (`strftime("%Y-%m-%d")`), so two calls less than 7 days
apart can still see a stale entry: a first call at time 23/24 of day 0
stores date 0 (its midnight); a second call at 22/3 (day 7, 8 am) is
only 6.375 days later, yet `22/3 - 0 ≥ 7` makes the entry stale and the
second call re-runs both simulations instead of zero. -/
theorem stale_by_truncation_cex :
    (22/3 : ℚ) - 23/24 < 7 ∧
    find_best_params [[(1 : ℕ), 2]] (fun p => ⟨(p.headI : ℚ), 0, 0⟩) "SPY" .missing (23/24)
      = .ok ⟨some [2], 2, [("SPY", ⟨[2], ⟨2, 0, 0⟩, (2, 1, 3/2), some 0⟩)]⟩ ∧
    find_best_params [[(1 : ℕ), 2]] (fun p => ⟨(p.headI : ℚ), 0, 0⟩) "SPY"
        (.doc [("SPY", ⟨[2], ⟨2, 0, 0⟩, (2, 1, 3/2), some 0⟩)]) (22/3)
      = .ok ⟨some [2], 2, [("SPY", ⟨[2], ⟨2, 0, 0⟩, (2, 1, 3/2), some 7⟩)]⟩ ∧
    (2 : ℕ) ≠ 0 := by
  refine ⟨by norm_num, ?_, ?_, by norm_num⟩
  · norm_num [find_best_params, gridSearch, loadCacheOrEmpty, lookupSym, setSym, listProd,
      selectFrom, Bind.bind, Except.bind, Pure.pure, Except.pure]
  · norm_num [find_best_params, gridSearch, loadCacheOrEmpty, lookupSym, setSym, listProd,
      selectFrom, Bind.bind, Except.bind, Pure.pure, Except.pure]

/-- **C6 (amended).**  (i) When the cache entry for the symbol carries a
date younger than the 7-day window, `find_best_params` returns that
entry's `best_params` immediately, performs zero simulations and leaves
the store unchanged.  (ii) Consequently, after any successful call, a
second call for the same symbol performs zero simulations and returns
the same `best_params` provided the second call occurs less than 7 days
after the *date recorded in the store* — i.e. the midnight of the first
call's day when the first call computed, not the first call's exact
time. -/
theorem cache_freshness {V : Type} :
    (∀ (grid : List (List V)) (runTR : List V → BTStats) (symbol : String)
        (data : List (String × CacheEntry (List V))) (e : CacheEntry (List V))
        (d : ℤ) (now : ℚ),
      lookupSym data symbol = some e → e.date = some d → now - (d : ℚ) < 7 →
      find_best_params grid runTR symbol (.doc data) now =
        .ok ⟨some e.bestParams, 0, data⟩) ∧
    (∀ (grid grid₂ : List (List V)) (runTR runTR₂ : List V → BTStats) (symbol : String)
        (store : CacheDoc (List (String × CacheEntry (List V)))) (now₁ now₂ : ℚ)
        (r₁ : FBPResult (List V)) (p : List V),
      find_best_params grid runTR symbol store now₁ = .ok r₁ →
      r₁.bestParams = some p →
      ∃ e, lookupSym r₁.store symbol = some e ∧ e.bestParams = p ∧
        ∀ d₂ : ℤ, e.date = some d₂ → now₂ - (d₂ : ℚ) < 7 →
          find_best_params grid₂ runTR₂ symbol (.doc r₁.store) now₂ =
            .ok ⟨some p, 0, r₁.store⟩) := by
  constructor
  · intro grid runTR symbol data e d now hl hd hf
    exact fbp_fresh_hit grid runTR symbol data e d now hl hd hf
  · intro grid grid₂ runTR runTR₂ symbol store now₁ now₂ r₁ p h1 hp
    cases store with
    | corrupt => simp [find_best_params, loadCacheOrEmpty, Bind.bind, Except.bind] at h1
    | missing =>
        have hgs : gridSearch grid runTR symbol [] now₁ = .ok r₁ := h1
        exact second_call_of_gridSearch grid₂ runTR₂ now₂ hgs hp
    | doc data =>
        rcases hl : lookupSym data symbol with _ | e₀
        · have hnone : (lookupSym data symbol).bind (fun e => e.date) = none := by
            rw [hl]; rfl
          rw [fbp_no_date grid runTR symbol data now₁ hnone] at h1
          exact second_call_of_gridSearch grid₂ runTR₂ now₂ h1 hp
        · rcases hdd : e₀.date with _ | d₀
          · have hnone : (lookupSym data symbol).bind (fun e => e.date) = none := by
              rw [hl]
              simpa using hdd
            rw [fbp_no_date grid runTR symbol data now₁ hnone] at h1
            exact second_call_of_gridSearch grid₂ runTR₂ now₂ h1 hp
          · by_cases hfc : now₁ - (d₀ : ℚ) < 7
            · have hfix := fbp_fresh_hit grid runTR symbol data e₀ d₀ now₁ hl hdd hfc
              rw [hfix] at h1
              injection h1 with h1'
              have hstore : r₁.store = data := by rw [← h1']
              have hbp : r₁.bestParams = some e₀.bestParams := by rw [← h1']
              have hEq : e₀.bestParams = p := Option.some.inj (hbp.symm.trans hp)
              refine ⟨e₀, by rw [hstore]; exact hl, hEq, ?_⟩
              intro d₂ hd₂ hf₂
              have := fbp_fresh_hit grid₂ runTR₂ symbol r₁.store e₀ d₂ now₂
                (by rw [hstore]; exact hl) hd₂ hf₂
              rw [hEq] at this
              exact this
            · rw [fbp_stale grid runTR symbol data e₀ d₀ now₁ hl hdd hfc] at h1
              exact second_call_of_gridSearch grid₂ runTR₂ now₂ h1 hp

/-- **C6 (witness).**  The fresh-hit half applied to a store whose
`"SPY"` entry has date (day) 0 queried at time 3 (< 7 days later), and
the two-call half applied to a first call on an empty store. -/
theorem cache_freshness_witness :
    lookupSym [("SPY", (⟨[5], ⟨0, 0, 0⟩, (0, 0, 0), some 0⟩ : CacheEntry (List ℕ)))] "SPY"
      = some ⟨[5], ⟨0, 0, 0⟩, (0, 0, 0), some 0⟩ ∧
    ((⟨[5], ⟨0, 0, 0⟩, (0, 0, 0), some 0⟩ : CacheEntry (List ℕ))).date = some 0 ∧
    (3 : ℚ) - ((0 : ℤ) : ℚ) < 7 ∧
    find_best_params [[(9 : ℕ)]] (fun _ => ⟨0, 0, 0⟩) "SPY"
        (.doc [("SPY", ⟨[5], ⟨0, 0, 0⟩, (0, 0, 0), some 0⟩)]) 3
      = .ok ⟨some [5], 0, [("SPY", ⟨[5], ⟨0, 0, 0⟩, (0, 0, 0), some 0⟩)]⟩ :=
  ⟨rfl, rfl, by norm_num,
    (cache_freshness (V := ℕ)).1 [[9]] (fun _ => ⟨0, 0, 0⟩) "SPY"
      [("SPY", ⟨[5], ⟨0, 0, 0⟩, (0, 0, 0), some 0⟩)]
      ⟨[5], ⟨0, 0, 0⟩, (0, 0, 0), some 0⟩ 0 3 rfl rfl (by norm_num)⟩

end AlpacaBot
